import Mathlib

/-!
Verification of the HunterLab update-server core against its specification.

The definitions below are shallow embeddings of the JavaScript server
(`src/unnamed/part_002`, the deployed express app) and of the operator
script `src/publish_update.sh` (its jq transformations).  Machine integers
are modelled as `Int`/`Nat`; JavaScript `undefined`/absent values as
`Option`; network and filesystem effects as explicit function parameters
(`download`, `parse`) and explicit result/counter pairs.
-/

/-- Model of JavaScript string falsiness for optional string parameters:
`undefined` and `""` are falsy. `jsStr o` is the string value used where the
code passes the raw (possibly `undefined`) value to a falsiness test. -/
def jsStr (o : Option String) : String := o.getD ""

/-- Model of the JavaScript idiom `x || d` on an optional string `x`
(`undefined` and `""` both fall through to `d`). -/
def jsOrStr (o : Option String) (d : String) : String :=
  match o with
  | some s => if s = "" then d else s
  | none => d

/-- Model of `x || y` where both sides are optional strings
(e.g. `entry.releaseNotes?.blob || entry.releaseNotesBlob`). -/
def jsOrOpt (a b : Option String) : Option String :=
  match a with
  | some s => if s = "" then b else some s
  | none => b

/-- Digit run to its decimal value (used by the `parseInt` model). -/
def digitsVal (cs : List Char) : Int :=
  cs.foldl (fun n c => n * 10 + Int.ofNat (c.toNat - '0'.toNat)) 0

/-- Parse a longest digit prefix; `none` models JavaScript `NaN`. -/
def parseDigits (cs : List Char) : Option Int :=
  let ds := cs.takeWhile fun c => c.isDigit
  if ds.isEmpty then none else some (digitsVal ds)

/-- Model of JavaScript `parseInt(s, 10)`: skip leading whitespace, optional
sign, then parse the longest digit prefix; no digits yields `NaN` (`none`). -/
def jsParseInt (s : String) : Option Int :=
  let cs := s.data.dropWhile fun c => c.isWhitespace
  match cs with
  | '-' :: rest => (parseDigits rest).map fun n => -n
  | '+' :: rest => parseDigits rest
  | _ => parseDigits cs

/-- Model of JavaScript `s.split(".")`; note `"".split(".")` is `[""]`. -/
def splitDotAux : List Char → List Char → List String
  | [], acc => [String.mk acc.reverse]
  | c :: cs, acc =>
    if c = '.' then String.mk acc.reverse :: splitDotAux cs []
    else splitDotAux cs (c :: acc)

/-- `splitOnDot s` models `s.split(".")`. -/
def splitOnDot (s : String) : List String := splitDotAux s.data []

/-- `a.split(".").map((n) => parseInt(n, 10))` followed by the later
`ap[i] || 0` coercion of `NaN` to `0` (source `part_002` lines 346-347). -/
def parsedComps (s : String) : List Int :=
  (splitOnDot s).map fun c => (jsParseInt c).getD 0

/-- The comparison loop of `isNewerVersion` (source `part_002` lines
348-353): index `i` walks up to `Math.max(ap.length, bp.length)` (the
`fuel` counts the remaining iterations), out-of-range components read as
`0` (`ap[i] || 0`), and the first unequal pair decides. -/
def isNewerLoop (ap bp : List Int) : Nat → Nat → Bool
  | _, 0 => false
  | i, fuel + 1 =>
    if ap.getD i 0 > bp.getD i 0 then true
    else if ap.getD i 0 < bp.getD i 0 then false
    else isNewerLoop ap bp (i + 1) fuel

/-- `isNewerVersion(a, b)` from `part_002` lines 344-355: empty (falsy)
input on either side returns `true`; otherwise the component loop runs. -/
def isNewerVersion (a b : String) : Bool :=
  if a = "" || b = "" then true
  else
    isNewerLoop (parsedComps a) (parsedComps b) 0
      (max (parsedComps a).length (parsedComps b).length)

/-- Pad a component list with zero components up to length `n`. -/
def padTo (n : Nat) (l : List Int) : List Int :=
  l ++ List.replicate (n - l.length) 0

/-- Component-wise "greater" on two equal-length component lists: decide at
the first unequal pair, equal lists are not greater. -/
def firstDiffGT : List Int → List Int → Bool
  | x :: xs, y :: ys =>
    if x > y then true
    else if x < y then false
    else firstDiffGT xs ys
  | _, _ => false

/-- The version comparator as the specification words it (spec §4.2): split
on `.`, parse each component (non-numeric counts as 0), pad the shorter
with zero components, compare component-wise deciding at the first unequal
pair, and return `true` when either input is empty/absent. -/
def specIsNewer (a b : String) : Bool :=
  if a = "" || b = "" then true
  else
    firstDiffGT (padTo (max (parsedComps a).length (parsedComps b).length) (parsedComps a))
      (padTo (max (parsedComps a).length (parsedComps b).length) (parsedComps b))

theorem length_padTo (n : Nat) (l : List Int) (h : l.length ≤ n) :
    (padTo n l).length = n := by
  simp [padTo]
  omega

theorem getD_padTo (n : Nat) (l : List Int) (i : Nat) (h : l.length ≤ n) :
    (padTo n l).getD i 0 = l.getD i 0 := by
  unfold padTo
  rcases lt_or_ge i l.length with hi | hi
  · rw [List.getD_append _ _ _ _ hi]
  · rw [List.getD_append_right _ _ _ _ hi]
    rcases lt_or_ge (i - l.length) (n - l.length) with hj | hj
    · rw [List.getD_eq_getElem _ _ (by simpa using hj), List.getElem_replicate,
        List.getD_eq_default _ _ hi]
    · rw [List.getD_eq_default _ _ (by simpa using hj), List.getD_eq_default _ _ hi]

theorem drop_padTo_cons (n : Nat) (l : List Int) (i : Nat) (hl : l.length ≤ n)
    (hi : i < n) :
    (padTo n l).drop i = l.getD i 0 :: (padTo n l).drop (i + 1) := by
  have hlen : (padTo n l).length = n := length_padTo n l hl
  have hi' : i < (padTo n l).length := by omega
  rw [List.drop_eq_getElem_cons hi']
  congr 1
  rw [← List.getD_eq_getElem (padTo n l) 0 hi']
  exact getD_padTo n l i hl

theorem isNewerLoop_eq_firstDiffGT (fuel : Nat) : ∀ (i : Nat) (ap bp : List Int),
    ap.length ≤ i + fuel → bp.length ≤ i + fuel →
    isNewerLoop ap bp i fuel =
      firstDiffGT ((padTo (i + fuel) ap).drop i) ((padTo (i + fuel) bp).drop i) := by
  induction fuel with
  | zero =>
    intro i ap bp ha hb
    have h1 : (padTo (i + 0) ap).drop i = [] := by
      apply List.drop_eq_nil_of_le
      rw [length_padTo _ _ (by omega)]
      omega
    rw [h1]
    rfl
  | succ fuel ih =>
    intro i ap bp ha hb
    have hi : i < i + (fuel + 1) := by omega
    rw [drop_padTo_cons _ _ _ (by omega) hi, drop_padTo_cons _ _ _ (by omega) hi]
    show isNewerLoop ap bp i (fuel + 1) = _
    unfold isNewerLoop firstDiffGT
    have harr : i + (fuel + 1) = (i + 1) + fuel := by omega
    split
    · rfl
    · split
      · rfl
      · rw [ih (i + 1) ap bp (by omega) (by omega)]
        rw [harr]

/-- First bridge: the loop in the source equals the declarative padded
component-wise comparison. -/
theorem isNewerVersion_eq_specIsNewer (a b : String) :
    isNewerVersion a b = specIsNewer a b := by
  unfold isNewerVersion specIsNewer
  split
  · rfl
  · rw [isNewerLoop_eq_firstDiffGT _ 0 _ _ (by omega) (by omega)]
    simp

theorem firstDiffGT_irrefl (xs : List Int) : firstDiffGT xs xs = false := by
  induction xs with
  | nil => rfl
  | cons x xs ih => simp [firstDiffGT, ih]

theorem firstDiffGT_asymm {xs ys : List Int} (h : firstDiffGT xs ys = true) :
    firstDiffGT ys xs = false := by
  induction xs generalizing ys with
  | nil => simp [firstDiffGT] at h
  | cons x xs ih =>
    cases ys with
    | nil => simp [firstDiffGT] at h
    | cons y ys =>
      by_cases hxy : x > y
      · simp only [firstDiffGT]
        rw [if_neg (by omega), if_pos (by omega)]
      · by_cases hxy2 : x < y
        · simp only [firstDiffGT, if_neg hxy, if_pos hxy2] at h
          exact absurd h (by simp)
        · simp only [firstDiffGT, if_neg hxy, if_neg hxy2] at h
          simp only [firstDiffGT]
          rw [if_neg (by omega), if_neg (by omega)]
          exact ih h

theorem firstDiffGT_connex {xs ys : List Int} (hlen : xs.length = ys.length)
    (hne : xs ≠ ys) : firstDiffGT xs ys = true ∨ firstDiffGT ys xs = true := by
  induction xs generalizing ys with
  | nil =>
    cases ys with
    | nil => exact absurd rfl hne
    | cons y ys => simp at hlen
  | cons x xs ih =>
    cases ys with
    | nil => simp at hlen
    | cons y ys =>
      unfold firstDiffGT
      rcases lt_trichotomy x y with hxy | hxy | hxy
      · right
        simp [hxy]
      · subst hxy
        have hne' : xs ≠ ys := by
          intro h
          exact hne (by rw [h])
        rcases ih (by simpa using hlen) hne' with h | h
        · left
          simpa using h
        · right
          simpa using h
      · left
        simp [hxy]

theorem firstDiffGT_le_trans : ∀ (xs ys zs : List Int),
    xs.length = ys.length → ys.length = zs.length →
    firstDiffGT xs ys = false → firstDiffGT ys zs = false →
    firstDiffGT xs zs = false
  | [], _, _, _, _, _, _ => rfl
  | x :: xs, [], _, h1, _, _, _ => by simp at h1
  | x :: xs, y :: ys, [], _, h2, _, _ => by simp at h2
  | x :: xs, y :: ys, z :: zs, h1, h2, hxy, hyz => by
    unfold firstDiffGT at hxy hyz ⊢
    split at hxy
    · exact absurd hxy (by simp)
    · split at hyz
      · exact absurd hyz (by simp)
      · split
        · omega
        · split
          · rfl
          · split at hxy
            · omega
            · split at hyz
              · omega
              · exact firstDiffGT_le_trans xs ys zs (by simpa using h1)
                  (by simpa using h2) hxy hyz

theorem firstDiffGT_append_zeros (k : Nat) : ∀ (xs ys : List Int),
    xs.length = ys.length →
    firstDiffGT (xs ++ List.replicate k 0) (ys ++ List.replicate k 0) =
      firstDiffGT xs ys
  | [], [], _ => by
    simpa using firstDiffGT_irrefl (List.replicate k 0)
  | [], y :: ys, h => by simp at h
  | x :: xs, [], h => by simp at h
  | x :: xs, y :: ys, h => by
    show firstDiffGT (x :: (xs ++ _)) (y :: (ys ++ _)) = _
    unfold firstDiffGT
    split
    · rfl
    · split
      · rfl
      · exact firstDiffGT_append_zeros k xs ys (by simpa using h)

theorem padTo_padTo (l : List Int) {n m : Nat} (hn : l.length ≤ n) (hm : n ≤ m) :
    padTo m l = padTo n l ++ List.replicate (m - n) 0 := by
  unfold padTo
  rw [List.append_assoc, ← List.replicate_add]
  congr 2
  omega

theorem firstDiffGT_pad_ext (p q : List Int) {n m : Nat}
    (hp : p.length ≤ n) (hq : q.length ≤ n) (hnm : n ≤ m) :
    firstDiffGT (padTo m p) (padTo m q) = firstDiffGT (padTo n p) (padTo n q) := by
  rw [padTo_padTo p hp hnm, padTo_padTo q hq hnm]
  exact firstDiffGT_append_zeros (m - n) _ _
    (by rw [length_padTo n p hp, length_padTo n q hq])

/-- Canonical padded comparison of two version strings: both component
lists padded to their common length. -/
def vGT (a b : String) : Bool :=
  firstDiffGT (padTo (max (parsedComps a).length (parsedComps b).length) (parsedComps a))
    (padTo (max (parsedComps a).length (parsedComps b).length) (parsedComps b))

theorem isNewerVersion_eq_vGT {a b : String} (ha : a ≠ "") (hb : b ≠ "") :
    isNewerVersion a b = vGT a b := by
  rw [isNewerVersion_eq_specIsNewer]
  unfold specIsNewer vGT
  simp [ha, hb]

theorem vGT_swap_args (a b : String) :
    vGT b a =
      firstDiffGT (padTo (max (parsedComps a).length (parsedComps b).length) (parsedComps b))
        (padTo (max (parsedComps a).length (parsedComps b).length) (parsedComps a)) := by
  unfold vGT
  rw [Nat.max_comm]

theorem isNewer_irrefl {a : String} (ha : a ≠ "") : isNewerVersion a a = false := by
  rw [isNewerVersion_eq_vGT ha ha]
  unfold vGT
  exact firstDiffGT_irrefl _

theorem isNewer_not_both {a b : String} (ha : a ≠ "") (hb : b ≠ "")
    (h1 : isNewerVersion a b = true) : isNewerVersion b a = false := by
  rw [isNewerVersion_eq_vGT ha hb] at h1
  rw [isNewerVersion_eq_vGT hb ha, vGT_swap_args]
  exact firstDiffGT_asymm h1

theorem isNewer_false_trans {x y z : String} (hx : x ≠ "") (hy : y ≠ "") (hz : z ≠ "")
    (h1 : isNewerVersion x y = false) (h2 : isNewerVersion y z = false) :
    isNewerVersion x z = false := by
  rw [isNewerVersion_eq_vGT hx hy] at h1
  rw [isNewerVersion_eq_vGT hy hz] at h2
  rw [isNewerVersion_eq_vGT hx hz]
  unfold vGT at h1 h2 ⊢
  set px := parsedComps x with hpx
  set py := parsedComps y with hpy
  set pz := parsedComps z with hpz
  set N := max (max px.length py.length) (max py.length pz.length) ⊔ max px.length pz.length with hN
  have hxN : px.length ≤ N := by omega
  have hyN : py.length ≤ N := by omega
  have hzN : pz.length ≤ N := by omega
  have e1 : firstDiffGT (padTo N px) (padTo N py) = false := by
    rw [firstDiffGT_pad_ext px py (le_max_left _ _) (le_max_right _ _) (by omega)]
    exact h1
  have e2 : firstDiffGT (padTo N py) (padTo N pz) = false := by
    rw [firstDiffGT_pad_ext py pz (le_max_left _ _) (le_max_right _ _) (by omega)]
    exact h2
  have e3 : firstDiffGT (padTo N px) (padTo N pz) = false :=
    firstDiffGT_le_trans _ _ _
      (by rw [length_padTo N px hxN, length_padTo N py hyN])
      (by rw [length_padTo N py hyN, length_padTo N pz hzN]) e1 e2
  have e4 := firstDiffGT_pad_ext px pz (le_max_left _ _) (le_max_right _ _)
    (show max px.length pz.length ≤ N by omega)
  rw [← e4]
  exact e3

/-- A dotted-numeric version string: non-empty, and every `.`-separated
component is a non-empty run of decimal digits. -/
def DottedNumeric (s : String) : Prop :=
  s ≠ "" ∧ ∀ c ∈ splitOnDot s, c ≠ "" ∧ ∀ ch ∈ c.data, ch.isDigit = true

instance : DecidablePred DottedNumeric := fun s => by
  unfold DottedNumeric
  infer_instance

/-- Two version strings differ under component-wise comparison: their
parsed component lists, zero-padded to the common length, are unequal. -/
def ComponentwiseDiffer (a b : String) : Prop :=
  padTo (max (parsedComps a).length (parsedComps b).length) (parsedComps a) ≠
    padTo (max (parsedComps a).length (parsedComps b).length) (parsedComps b)

instance : ∀ a b, Decidable (ComponentwiseDiffer a b) := fun a b => by
  unfold ComponentwiseDiffer
  infer_instance

/-- C6: for all inputs, `isNewerVersion` splits both strings on `.`, pads
the shorter with zero components, parses each component with non-numeric
components counting as 0, compares component-wise most- to
least-significant deciding at the first unequal pair, and returns `true`
when either input is empty/absent.  Stated as: the source comparator
coincides with `specIsNewer`, the definition written from the spec's words. -/
theorem version_comparator_follows_spec (a b : String) :
    isNewerVersion a b = specIsNewer a b :=
  isNewerVersion_eq_specIsNewer a b

/-- C7: for dotted-numeric version strings that differ under
component-wise comparison, exactly one of `isNewer(a,b)` and `isNewer(b,a)`
is true; and `isNewer(a,a)` is false for every well-formed `a`. -/
theorem version_comparator_antisymm :
    (∀ a b : String, DottedNumeric a → DottedNumeric b → ComponentwiseDiffer a b →
      isNewerVersion a b ≠ isNewerVersion b a) ∧
    (∀ a : String, DottedNumeric a → isNewerVersion a a = false) := by
  constructor
  · intro a b ha hb hdiff
    have ha' : a ≠ "" := ha.1
    have hb' : b ≠ "" := hb.1
    set n := max (parsedComps a).length (parsedComps b).length with hn
    have hswap : vGT b a = firstDiffGT (padTo n (parsedComps b)) (padTo n (parsedComps a)) := by
      unfold vGT
      rw [Nat.max_comm]
    have hab : vGT a b = firstDiffGT (padTo n (parsedComps a)) (padTo n (parsedComps b)) := rfl
    have hlen : (padTo n (parsedComps a)).length = (padTo n (parsedComps b)).length := by
      rw [length_padTo n _ (le_max_left _ _), length_padTo n _ (le_max_right _ _)]
    rw [isNewerVersion_eq_vGT ha' hb', isNewerVersion_eq_vGT hb' ha', hab, hswap]
    rcases firstDiffGT_connex hlen hdiff with h | h
    · rw [h, firstDiffGT_asymm h]
      simp
    · rw [firstDiffGT_asymm h, h]
      simp
  · intro a ha
    exact isNewer_irrefl ha.1

/-- Witness for C7 at `a = "1.10"`, `b = "1.9"`: both are dotted-numeric,
they differ component-wise, and the comparator orders them asymmetrically. -/
theorem version_comparator_antisymm_witness :
    (DottedNumeric "1.10" ∧ DottedNumeric "1.9" ∧ ComponentwiseDiffer "1.10" "1.9" ∧
      isNewerVersion "1.10" "1.9" ≠ isNewerVersion "1.9" "1.10") ∧
    (DottedNumeric "2.3.0" ∧ isNewerVersion "2.3.0" "2.3.0" = false) :=
  ⟨⟨by decide, by decide, by decide,
    version_comparator_antisymm.1 "1.10" "1.9" (by decide) (by decide) (by decide)⟩,
   ⟨by decide, version_comparator_antisymm.2 "2.3.0" (by decide)⟩⟩

/-- A release entry's `releaseNotes` field as read by `part_002`: either a
bare string (the blob name, the "simplified format") or an object of which
the server reads only `.blob`; `content`, `url` and the inline flag are
carried so that entries of the richer shape can be expressed. -/
inductive ReleaseNotesField where
  | str (blobName : String)
  | obj (content : Option String) (blob : Option String) (url : Option String)
      (inlineFlag : Bool)
deriving DecidableEq

/-- One manifest release entry (spec §3; fields as read by `part_002` and
written by `publish_update.sh`).  Absent JSON fields are `none`. -/
structure ReleaseEntry where
  product : String := ""
  model : Option String := none
  version : String := ""
  displayVersion : Option String := none
  channel : Option String := none
  releaseDate : Option String := none
  isRequired : Bool := false
  file : Option String := none
  filesWindows : Option String := none
  filesMacos : Option String := none
  filesLinux : Option String := none
  filesDefault : Option String := none
  downloadUrl : Option String := none
  releaseNotes : Option ReleaseNotesField := none
  releaseNotesBlob : Option String := none
deriving DecidableEq

/-- A parsed JSON manifest value, restricted to the shapes the manifest
pipeline distinguishes: `null`/booleans/numbers/strings (scalars), a bare
array of release entries, or an object whose only relevant key is
`updates`. -/
inductive JsVal where
  | jnull
  | jbool (b : Bool)
  | jnum (n : Int)
  | jstr (s : String)
  | jarr (elems : List ReleaseEntry)
  | jobj (updates : Option (List ReleaseEntry))
deriving DecidableEq

/-- JavaScript truthiness of a parsed JSON value (`!manifest` checks). -/
def jsTruthy : JsVal → Bool
  | .jnull => false
  | .jbool b => b
  | .jnum n => n ≠ 0
  | .jstr s => s ≠ ""
  | .jarr _ => true
  | .jobj _ => true

/-- The server's `manifest.updates || []` read: only an object with an
`updates` key yields entries (a bare array has no `.updates` property). -/
def jsUpdatesOf : JsVal → List ReleaseEntry
  | .jobj (some l) => l
  | _ => []

/-- The candidate filter shared by `handleUpdateCheck`, `/api/releases`
and `/api/release-notes` (`part_002` lines 224-232 and 280-288): filter by
product; then by model when the request gives a model and the product is
`instrument`; then by channel, an absent entry channel counting as
`production` and the requested channel defaulting to `production`. -/
def filterCandidates (updates : List ReleaseEntry) (product : String)
    (model channel : Option String) : List ReleaseEntry :=
  let base := updates.filter fun u => u.product = product
  let withModel :=
    if jsStr model ≠ "" ∧ product = "instrument" then
      base.filter fun u => u.model = some (jsStr model)
    else base
  withModel.filter fun u => jsOrStr u.channel "production" = jsOrStr channel "production"

/-- Insert into a sorted list: `x` goes in front of the first element `y`
with `le x y`. -/
def insertLe (le : α → α → Bool) (x : α) : List α → List α
  | [] => [x]
  | y :: ys => if le x y then x :: y :: ys else y :: insertLe le x ys

/-- Stable insertion sort, the model of `Array.prototype.sort` (a stable
sort) with comparator `cmp`, via `le a b := cmp a b ≤ 0`.  For a comparator
that is transitive and total on the array's elements this agrees with any
stable sort, hence with the engine's. -/
def jsSortBy (le : α → α → Bool) : List α → List α
  | [] => []
  | x :: xs => insertLe le x (jsSortBy le xs)

/-- `new Date(u.releaseDate || 0).getTime()` under an injected date parser
`dparse` (milliseconds); a falsy `releaseDate` yields epoch 0. -/
def entryDateMs (dparse : String → Int) (u : ReleaseEntry) : Int :=
  match u.releaseDate with
  | none => 0
  | some s => if s = "" then 0 else dparse s

/-- The sort comparator of `handleUpdateCheck` (`part_002` lines 295-300):
`releaseDate` descending, ties broken by `isNewerVersion(b.version,
a.version) ? 1 : -1`. -/
def updateCmp (dparse : String → Int) (a b : ReleaseEntry) : Int :=
  if entryDateMs dparse a ≠ entryDateMs dparse b then
    entryDateMs dparse b - entryDateMs dparse a
  else if isNewerVersion b.version a.version then 1 else -1

/-- `a` may stay before `b` under the comparator (`cmp a b ≤ 0`). -/
def sortLe (dparse : String → Int) (a b : ReleaseEntry) : Bool :=
  updateCmp dparse a b ≤ 0

/-- `candidates.sort(cmp)[0]`: the head of the sorted candidate list. -/
def selectTopEntry (dparse : String → Int) (l : List ReleaseEntry) :
    Option ReleaseEntry :=
  (jsSortBy (sortLe dparse) l).head?

/-- The fields of a positive update-check response (`updateInfo`), minus
the I/O-derived `downloadUrl`/`releaseNotes` enrichment, which is resolved
by the separately modelled helpers. -/
structure UpdateInfo where
  version : String
  displayVersion : String
  isRequired : Bool
  model : Option String
  channel : String
  releaseDate : Option String
deriving DecidableEq

/-- The shapes of a `handleUpdateCheck` response: scenario-forced 500,
missing manifest (404, `hasUpdate:false`), no matching candidates
(`hasUpdate:false`), client already current (`hasUpdate:false`), or a
positive response (`hasUpdate:true` with `updateInfo`). -/
inductive UpdateCheckResponse where
  | error500
  | manifestMissing
  | noCandidates
  | upToDate
  | updateAvailable (info : UpdateInfo)
deriving DecidableEq

/-- `handleUpdateCheck` (`part_002` lines 265-336), with the effective
scenario, the loaded manifest and the date parser passed explicitly. -/
def handleUpdateCheck (dparse : String → Int) (scenario : String)
    (manifest : Option JsVal) (product : String)
    (model channel currentVersion : Option String) : UpdateCheckResponse :=
  if scenario = "error" then .error500
  else
    match manifest with
    | none => .manifestMissing
    | some m =>
      if jsTruthy m = false then .manifestMissing
      else
        match selectTopEntry dparse (filterCandidates (jsUpdatesOf m) product model channel) with
        | none => .noCandidates
        | some entry =>
          if (if scenario = "no_update" then false
              else isNewerVersion entry.version (jsStr currentVersion)) then
            .updateAvailable
              { version := entry.version
                displayVersion := jsOrStr entry.displayVersion entry.version
                isRequired := entry.isRequired
                model := entry.model
                channel := jsOrStr entry.channel "production"
                releaseDate := entry.releaseDate }
          else .upToDate

theorem mem_insertLe (le : α → α → Bool) (x a : α) :
    ∀ l : List α, a ∈ insertLe le x l ↔ a = x ∨ a ∈ l
  | [] => by simp [insertLe]
  | y :: ys => by
    simp only [insertLe]
    split
    · simp only [List.mem_cons]
    · rw [List.mem_cons, mem_insertLe le x a ys]
      simp only [List.mem_cons]
      tauto

theorem mem_jsSortBy (le : α → α → Bool) (a : α) :
    ∀ l : List α, a ∈ jsSortBy le l ↔ a ∈ l
  | [] => Iff.rfl
  | x :: xs => by
    simp only [jsSortBy]
    rw [mem_insertLe, mem_jsSortBy le a xs]
    simp only [List.mem_cons]

theorem insertLe_ne_nil (le : α → α → Bool) (x : α) (l : List α) :
    insertLe le x l ≠ [] := by
  cases l with
  | nil => simp [insertLe]
  | cons y ys =>
    simp only [insertLe]
    split <;> simp

theorem jsSortBy_eq_nil_iff (le : α → α → Bool) (l : List α) :
    jsSortBy le l = [] ↔ l = [] := by
  cases l with
  | nil => simp [jsSortBy]
  | cons x xs =>
    simp only [jsSortBy]
    constructor
    · intro h
      exact absurd h (insertLe_ne_nil le x _)
    · intro h
      exact absurd h (by simp)

theorem jsSortBy_head?_min (le : α → α → Bool) :
    ∀ l : List α,
    (∀ a ∈ l, ∀ b ∈ l, le a b = true ∨ le b a = true) →
    (∀ a ∈ l, ∀ b ∈ l, ∀ c ∈ l, le a b = true → le b c = true → le a c = true) →
    ∀ t, (jsSortBy le l).head? = some t → t ∈ l ∧ ∀ b ∈ l, le t b = true := by
  intro l
  induction l with
  | nil =>
    intro _ _ t ht
    simp [jsSortBy] at ht
  | cons x xs ih =>
    intro htot htrans t ht
    have hxmem : x ∈ x :: xs := List.mem_cons_self x xs
    have hxx : le x x = true := by
      rcases htot x hxmem x hxmem with h | h <;> exact h
    have htot' : ∀ a ∈ xs, ∀ b ∈ xs, le a b = true ∨ le b a = true := fun a ha b hb =>
      htot a (List.mem_cons_of_mem x ha) b (List.mem_cons_of_mem x hb)
    have htrans' : ∀ a ∈ xs, ∀ b ∈ xs, ∀ c ∈ xs,
        le a b = true → le b c = true → le a c = true := fun a ha b hb c hc =>
      htrans a (List.mem_cons_of_mem x ha) b (List.mem_cons_of_mem x hb)
        c (List.mem_cons_of_mem x hc)
    have ht2 : (insertLe le x (jsSortBy le xs)).head? = some t := ht
    rcases hxs : jsSortBy le xs with _ | ⟨y, ys⟩
    · have hxsnil : xs = [] := (jsSortBy_eq_nil_iff le xs).mp hxs
      rw [hxs] at ht2
      have hx : x = t := by simpa [insertLe] using ht2
      refine ⟨hx ▸ hxmem, ?_⟩
      intro b hb
      rw [hxsnil] at hb
      have hbx : b = x := by simpa using hb
      rw [← hx, hbx]
      exact hxx
    · rw [hxs] at ht2
      obtain ⟨hymem, hymin⟩ := ih htot' htrans' y (by rw [hxs]; rfl)
      have hymem' : y ∈ x :: xs := List.mem_cons_of_mem x hymem
      by_cases hxy : le x y = true
      · have hins : insertLe le x (y :: ys) = x :: y :: ys := by
          simp [insertLe, hxy]
        rw [hins] at ht2
        have hx : x = t := by simpa using ht2
        refine ⟨hx ▸ hxmem, ?_⟩
        intro b hb
        rw [← hx]
        rcases List.mem_cons.mp hb with hbx | hbxs
        · rw [hbx]
          exact hxx
        · exact htrans x hxmem y hymem' b (List.mem_cons_of_mem x hbxs) hxy
            (hymin b hbxs)
      · have hins : insertLe le x (y :: ys) = y :: insertLe le x ys := by
          simp [insertLe, hxy]
        rw [hins] at ht2
        have hy : y = t := by simpa using ht2
        refine ⟨hy ▸ hymem', ?_⟩
        intro b hb
        rw [← hy]
        rcases List.mem_cons.mp hb with hbx | hbxs
        · rw [hbx]
          rcases htot x hxmem y hymem' with h | h
          · exact absurd h hxy
          · exact h
        · exact hymin b hbxs

/-- `t` ranks top among `l` in the sense of the update-check ranking:
every candidate has a strictly older `releaseDate`, or the same date and a
version that is not newer than `t`'s. -/
def IsTopCandidate (dparse : String → Int) (t : ReleaseEntry)
    (l : List ReleaseEntry) : Prop :=
  ∀ u ∈ l, entryDateMs dparse u < entryDateMs dparse t ∨
    (entryDateMs dparse u = entryDateMs dparse t ∧
      isNewerVersion u.version t.version = false)

instance (dparse : String → Int) (t : ReleaseEntry) (l : List ReleaseEntry) :
    Decidable (IsTopCandidate dparse t l) := by
  unfold IsTopCandidate
  infer_instance

theorem sortLe_iff (dparse : String → Int) (a b : ReleaseEntry) :
    sortLe dparse a b = true ↔
      (entryDateMs dparse b < entryDateMs dparse a ∨
        (entryDateMs dparse b = entryDateMs dparse a ∧
          isNewerVersion b.version a.version = false)) := by
  unfold sortLe updateCmp
  rcases hbv : isNewerVersion b.version a.version with _ | _ <;>
    by_cases hd : entryDateMs dparse a = entryDateMs dparse b <;>
    simp [hd] <;> omega

theorem sortLe_total (dparse : String → Int) {a b : ReleaseEntry}
    (ha : a.version ≠ "") (hb : b.version ≠ "") :
    sortLe dparse a b = true ∨ sortLe dparse b a = true := by
  rcases lt_trichotomy (entryDateMs dparse a) (entryDateMs dparse b) with h | h | h
  · right
    rw [sortLe_iff]
    exact Or.inl h
  · rcases hn : isNewerVersion b.version a.version with _ | _
    · left
      rw [sortLe_iff]
      exact Or.inr ⟨h.symm, hn⟩
    · right
      rw [sortLe_iff]
      exact Or.inr ⟨h, isNewer_not_both hb ha hn⟩
  · left
    rw [sortLe_iff]
    exact Or.inl h

theorem sortLe_trans (dparse : String → Int) {a b c : ReleaseEntry}
    (ha : a.version ≠ "") (hb : b.version ≠ "") (hc : c.version ≠ "")
    (h1 : sortLe dparse a b = true) (h2 : sortLe dparse b c = true) :
    sortLe dparse a c = true := by
  rw [sortLe_iff] at h1 h2 ⊢
  rcases h1 with h1 | h1
  · rcases h2 with h2 | h2
    · exact Or.inl (by omega)
    · exact Or.inl (by omega)
  · rcases h2 with h2 | h2
    · exact Or.inl (by omega)
    · exact Or.inr ⟨by omega, isNewer_false_trans hc hb ha h2.2 h1.2⟩

theorem selectTopEntry_spec (dparse : String → Int) (l : List ReleaseEntry)
    (hv : ∀ u ∈ l, u.version ≠ "") {t : ReleaseEntry}
    (ht : selectTopEntry dparse l = some t) :
    t ∈ l ∧ IsTopCandidate dparse t l := by
  have htot : ∀ a ∈ l, ∀ b ∈ l, sortLe dparse a b = true ∨ sortLe dparse b a = true :=
    fun a hma b hmb => sortLe_total dparse (hv a hma) (hv b hmb)
  have htrans : ∀ a ∈ l, ∀ b ∈ l, ∀ c ∈ l,
      sortLe dparse a b = true → sortLe dparse b c = true → sortLe dparse a c = true :=
    fun a hma b hmb c hmc => sortLe_trans dparse (hv a hma) (hv b hmb) (hv c hmc)
  obtain ⟨hmem, hmin⟩ := jsSortBy_head?_min (sortLe dparse) l htot htrans t ht
  refine ⟨hmem, ?_⟩
  intro u hu
  exact (sortLe_iff dparse t u).mp (hmin u hu)

theorem selectTopEntry_eq_none_iff (dparse : String → Int) (l : List ReleaseEntry) :
    selectTopEntry dparse l = none ↔ l = [] := by
  unfold selectTopEntry
  rw [List.head?_eq_none_iff, jsSortBy_eq_nil_iff]

theorem handleUpdateCheck_noCandidates (dparse : String → Int)
    (scenario product : String) (m : JsVal)
    (model channel currentVersion : Option String)
    (hscen : scenario ≠ "error") (hm : jsTruthy m = true)
    (hsel : selectTopEntry dparse (filterCandidates (jsUpdatesOf m) product model channel) =
      none) :
    handleUpdateCheck dparse scenario (some m) product model channel currentVersion =
      .noCandidates := by
  unfold handleUpdateCheck
  rw [if_neg hscen]
  show (if jsTruthy m = false then _ else _) = _
  rw [if_neg (by simp [hm])]
  show (match selectTopEntry dparse
      (filterCandidates (jsUpdatesOf m) product model channel) with
    | none => UpdateCheckResponse.noCandidates
    | some entry =>
      if (if scenario = "no_update" then false
          else isNewerVersion entry.version (jsStr currentVersion)) then
        UpdateCheckResponse.updateAvailable
          { version := entry.version
            displayVersion := jsOrStr entry.displayVersion entry.version
            isRequired := entry.isRequired
            model := entry.model
            channel := jsOrStr entry.channel "production"
            releaseDate := entry.releaseDate }
      else UpdateCheckResponse.upToDate) = _
  rw [hsel]

theorem handleUpdateCheck_top (dparse : String → Int)
    (scenario product : String) (m : JsVal)
    (model channel currentVersion : Option String) (t : ReleaseEntry)
    (hscen : scenario ≠ "error") (hm : jsTruthy m = true)
    (hsel : selectTopEntry dparse (filterCandidates (jsUpdatesOf m) product model channel) =
      some t) :
    handleUpdateCheck dparse scenario (some m) product model channel currentVersion =
      (if (if scenario = "no_update" then false
           else isNewerVersion t.version (jsStr currentVersion)) then
        UpdateCheckResponse.updateAvailable
          { version := t.version
            displayVersion := jsOrStr t.displayVersion t.version
            isRequired := t.isRequired
            model := t.model
            channel := jsOrStr t.channel "production"
            releaseDate := t.releaseDate }
      else UpdateCheckResponse.upToDate) := by
  unfold handleUpdateCheck
  rw [if_neg hscen]
  show (if jsTruthy m = false then _ else _) = _
  rw [if_neg (by simp [hm])]
  show (match selectTopEntry dparse
      (filterCandidates (jsUpdatesOf m) product model channel) with
    | none => UpdateCheckResponse.noCandidates
    | some entry =>
      if (if scenario = "no_update" then false
          else isNewerVersion entry.version (jsStr currentVersion)) then
        UpdateCheckResponse.updateAvailable
          { version := entry.version
            displayVersion := jsOrStr entry.displayVersion entry.version
            isRequired := entry.isRequired
            model := entry.model
            channel := jsOrStr entry.channel "production"
            releaseDate := entry.releaseDate }
      else UpdateCheckResponse.upToDate) = _
  rw [hsel]

/-- C2: for every update-check request with a loaded manifest and a
non-`error` scenario, with candidates filtered by product, model (for
instrument requests with a model) and channel (defaulting to production):
the response is a positive `hasUpdate:true` one exactly when candidates
exist, the scenario is not `no_update`, and the top-ranked candidate
(greatest `releaseDate`, ties broken by the newer version) is newer than
the client's `currentVersion`; a positive response reports that top
candidate's version. -/
theorem update_check_semantics (dparse : String → Int) (scenario product : String)
    (m : JsVal) (model channel currentVersion : Option String)
    (hscen : scenario ≠ "error") (hm : jsTruthy m = true)
    (hv : ∀ u ∈ filterCandidates (jsUpdatesOf m) product model channel, u.version ≠ "") :
    (∀ info, handleUpdateCheck dparse scenario (some m) product model channel currentVersion =
        .updateAvailable info →
      scenario ≠ "no_update" ∧
      ∃ t ∈ filterCandidates (jsUpdatesOf m) product model channel,
        IsTopCandidate dparse t (filterCandidates (jsUpdatesOf m) product model channel) ∧
        isNewerVersion t.version (jsStr currentVersion) = true ∧
        info.version = t.version) ∧
    (filterCandidates (jsUpdatesOf m) product model channel ≠ [] →
      scenario ≠ "no_update" →
      (∀ t ∈ filterCandidates (jsUpdatesOf m) product model channel,
        IsTopCandidate dparse t (filterCandidates (jsUpdatesOf m) product model channel) →
        isNewerVersion t.version (jsStr currentVersion) = true) →
      ∃ info, handleUpdateCheck dparse scenario (some m) product model channel currentVersion =
        .updateAvailable info) := by
  constructor
  · intro info hinfo
    rcases hsel : selectTopEntry dparse (filterCandidates (jsUpdatesOf m) product model channel)
      with _ | t
    · rw [handleUpdateCheck_noCandidates dparse scenario product m model channel
        currentVersion hscen hm hsel] at hinfo
      exact absurd hinfo (by simp)
    · rw [handleUpdateCheck_top dparse scenario product m model channel
        currentVersion t hscen hm hsel] at hinfo
      obtain ⟨htmem, htop⟩ := selectTopEntry_spec dparse _ hv hsel
      by_cases hns : scenario = "no_update"
      · rw [if_pos hns] at hinfo
        exact absurd hinfo (by simp)
      · rw [if_neg hns] at hinfo
        rcases hnew : isNewerVersion t.version (jsStr currentVersion) with _ | _
        · rw [hnew] at hinfo
          exact absurd hinfo (by simp)
        · rw [hnew] at hinfo
          have h3 : UpdateCheckResponse.updateAvailable
              { version := t.version
                displayVersion := jsOrStr t.displayVersion t.version
                isRequired := t.isRequired
                model := t.model
                channel := jsOrStr t.channel "production"
                releaseDate := t.releaseDate } = .updateAvailable info := by
            simpa using hinfo
          injection h3 with h4
          exact ⟨hns, t, htmem, htop, hnew, by rw [← h4]⟩
  · intro hne hns htop
    rcases hsel : selectTopEntry dparse (filterCandidates (jsUpdatesOf m) product model channel)
      with _ | t
    · exact absurd ((selectTopEntry_eq_none_iff dparse _).mp hsel) hne
    · obtain ⟨htmem, htopt⟩ := selectTopEntry_spec dparse _ hv hsel
      have hnew : isNewerVersion t.version (jsStr currentVersion) = true :=
        htop t htmem htopt
      refine ⟨{ version := t.version
                displayVersion := jsOrStr t.displayVersion t.version
                isRequired := t.isRequired
                model := t.model
                channel := jsOrStr t.channel "production"
                releaseDate := t.releaseDate }, ?_⟩
      rw [handleUpdateCheck_top dparse scenario product m model channel
        currentVersion t hscen hm hsel, if_neg hns, hnew]
      rw [if_pos rfl]


/-- The spec's Scenario 1 entry: a desktop/production release at version
`2.3.0` dated `2025-01-01`. -/
def scenarioOneEntry : ReleaseEntry :=
  { product := "desktop"
    version := "2.3.0"
    releaseDate := some "2025-01-01" }

/-- The spec's Scenario 1 manifest. -/
def scenarioOneManifest : JsVal := JsVal.jobj (some [scenarioOneEntry])

/-- Witness for C2 at the spec's Scenario 1: client at `2.2.0` on the
production channel gets a positive update response. -/
theorem update_check_semantics_witness :
    ∃ info, handleUpdateCheck (fun _ => 0) "has_update" (some scenarioOneManifest)
      "desktop" none none (some "2.2.0") = .updateAvailable info :=
  (update_check_semantics (fun _ => 0) "has_update" "desktop" scenarioOneManifest
    none none (some "2.2.0") (by decide) (by decide) (by decide)).2
    (by decide) (by decide) (by decide)

/-- A release-notes resolution result: optional inline content and
optional URL. -/
structure NotesResult where
  content : Option String
  url : Option String
deriving DecidableEq

/-- The blob-name extraction of `resolveReleaseNotes` (`part_002` lines
400-402): a string-typed `releaseNotes` is itself the blob name
("simplified format"); otherwise `entry.releaseNotes?.blob ||
entry.releaseNotesBlob`. -/
def releaseNotesBlobName (e : ReleaseEntry) : Option String :=
  match e.releaseNotes with
  | some (.str s) => some s
  | some (.obj _ b _ _) => jsOrOpt b e.releaseNotesBlob
  | none => e.releaseNotesBlob

/-- `resolveReleaseNotes` (`part_002` lines 398-416): when storage is
configured and a (truthy) blob name is present, download it and return the
text as inline content, or `none` when the download fails; in every other
case return `none`.  The second component counts the network reads
performed (`download` returning `none` models a failed download). -/
def resolveReleaseNotes (storageAccount : Bool) (download : String → Option String)
    (e : ReleaseEntry) : Option NotesResult × Nat :=
  match storageAccount, releaseNotesBlobName e with
  | true, some bn =>
    if bn = "" then (none, 0)
    else
      match download bn with
      | some c => (some { content := some c, url := none }, 1)
      | none => (none, 1)
  | true, none => (none, 0)
  | false, _ => (none, 0)

/-- An entry carrying only literal inline release-notes content. -/
def inlineOnlyEntry : ReleaseEntry :=
  { product := "desktop"
    version := "2.3.0"
    releaseNotes := some (.obj (some "inline notes") none none false) }

/-- Counterexample to C3: this entry carries literal inline content
`"inline notes"`, yet `resolveReleaseNotes` (with storage configured and a
downloader that would succeed) returns no result at all — it performs zero
network calls but does not return the inline content. -/
theorem resolve_inline_counterexample :
    inlineOnlyEntry.releaseNotes =
      some (.obj (some "inline notes") none none false) ∧
    resolveReleaseNotes true (fun _ => some "blob text") inlineOnlyEntry = (none, 0) ∧
    (resolveReleaseNotes true (fun _ => some "blob text") inlineOnlyEntry).1 ≠
      some { content := some "inline notes", url := none } := by
  refine ⟨rfl, rfl, ?_⟩
  decide

/-- C3 as amended: for every entry whose release notes carry literal
inline content and no blob reference, the resolver performs zero network
calls but returns `none` — the inline content is ignored, not returned. -/
theorem resolve_inline_only_returns_none (sa : Bool) (download : String → Option String)
    (e : ReleaseEntry) (content : Option String) (url : Option String) (flag : Bool)
    (hrn : e.releaseNotes = some (.obj content none url flag))
    (hblob : e.releaseNotesBlob = none) :
    resolveReleaseNotes sa download e = (none, 0) := by
  have hbn : releaseNotesBlobName e = none := by
    unfold releaseNotesBlobName
    rw [hrn]
    simp [jsOrOpt, hblob]
  unfold resolveReleaseNotes
  rw [hbn]
  cases sa <;> rfl

/-- Witness for the amended C3 at `inlineOnlyEntry`. -/
theorem resolve_inline_only_returns_none_witness :
    resolveReleaseNotes true (fun _ => some "blob text") inlineOnlyEntry = (none, 0) :=
  resolve_inline_only_returns_none true (fun _ => some "blob text") inlineOnlyEntry
    (some "inline notes") none false rfl rfl

/-- An entry whose release notes are an object-name (blob) reference. -/
def blobRefEntry : ReleaseEntry :=
  { product := "instrument"
    model := some "agera"
    version := "1.0.0"
    releaseNotes := some (.str "notes.md") }

/-- Counterexample to C4: for an entry with an object-name reference whose
single download attempt fails, the resolver returns `none` (the request
then fails with "Release notes not available") instead of degrading to a
URL-only result. -/
theorem resolve_failure_counterexample :
    resolveReleaseNotes true (fun _ => none) blobRefEntry = (none, 1) ∧
    ∀ rn : NotesResult,
      (resolveReleaseNotes true (fun _ => none) blobRefEntry).1 ≠ some rn := by
  refine ⟨rfl, ?_⟩
  intro rn h
  have h2 : (none : Option NotesResult) = some rn := h
  cases h2

/-- C4 as amended: every resolution call performs at most one network
read, and when the entry's (truthy) blob reference fails to download the
resolver returns `none` — there is no degradation to a URL-only result. -/
theorem resolve_at_most_one_read (sa : Bool) (download : String → Option String)
    (e : ReleaseEntry) :
    (resolveReleaseNotes sa download e).2 ≤ 1 ∧
    (∀ bn, releaseNotesBlobName e = some bn → bn ≠ "" → sa = true →
      download bn = none → (resolveReleaseNotes sa download e).1 = none) := by
  constructor
  · unfold resolveReleaseNotes
    cases sa
    · simp
    · rcases hbn : releaseNotesBlobName e with _ | bn
      · simp
      · simp only []
        split
        · simp
        · rcases hdl : download bn with _ | c <;> simp
  · intro bn hbn hne hsa hdl
    subst hsa
    unfold resolveReleaseNotes
    rw [hbn]
    simp only [if_neg hne]
    rw [hdl]

/-- Witness for the amended C4 at `blobRefEntry` with a failing download. -/
theorem resolve_at_most_one_read_witness :
    (resolveReleaseNotes true (fun _ => none) blobRefEntry).2 ≤ 1 ∧
    (resolveReleaseNotes true (fun _ => none) blobRefEntry).1 = none :=
  ⟨(resolve_at_most_one_read true (fun _ => none) blobRefEntry).1,
    (resolve_at_most_one_read true (fun _ => none) blobRefEntry).2
      "notes.md" rfl (by decide) rfl rfl⟩

/-- The local-fallback read of `loadManifest` (`part_002` lines 429-436):
`localFile` is the file's text when it exists; a parse failure falls
through to the final `return null`. -/
def loadLocal (localFile : Option String) (parse : String → Option JsVal) :
    Option JsVal :=
  match localFile with
  | some text =>
    match parse text with
    | some j => some j
    | none => none
  | none => none

/-- `loadManifest` (`part_002` lines 418-438): with storage configured,
try the blob fetch (`primaryFetch`, `none` = download failure) and
`JSON.parse`; on any failure fall back to the local file; if both fail
return `null`.  A total function: no failure escapes. -/
def loadManifest (storageAccount : Bool) (primaryFetch : Option String)
    (localFile : Option String) (parse : String → Option JsVal) : Option JsVal :=
  match storageAccount, primaryFetch with
  | true, some text =>
    match parse text with
    | some j => some j
    | none => loadLocal localFile parse
  | true, none => loadLocal localFile parse
  | false, _ => loadLocal localFile parse

/-- The jq `toObj` normalization of `publish_update.sh` (lines 157, 422):
an array is wrapped as `{updates: .}`, an object is kept, anything else
becomes `{updates: []}`. -/
def toObj : JsVal → JsVal
  | .jarr l => .jobj (some l)
  | .jobj u => .jobj u
  | _ => .jobj (some [])

/-- A parse function returning a bare-array manifest for the fixed text
`"[bare]"` (used as a concrete counterexample input). -/
def bareArrayParse : String → Option JsVal :=
  fun s => if s = "[bare]" then some (JsVal.jarr [scenarioOneEntry]) else none

/-- Counterexample to C5's normalization clause: the server's `load`
returns a bare-sequence manifest as-is — it is not wrapped as
`{updates: <sequence>}` — and the server's consumers
(`manifest.updates || []`) then see no entries at all. -/
theorem load_manifest_no_normalization :
    loadManifest true (some "[bare]") none bareArrayParse =
      some (JsVal.jarr [scenarioOneEntry]) ∧
    JsVal.jarr [scenarioOneEntry] ≠ JsVal.jobj (some [scenarioOneEntry]) ∧
    jsUpdatesOf (JsVal.jarr [scenarioOneEntry]) = [] := by
  refine ⟨rfl, ?_, rfl⟩
  intro h
  cases h

/-- C5 as amended: `load()` never throws — primary fetch/parse success
returns the parsed value unchanged, any primary failure falls back to the
local source, and when both fail the result is the explicit not-found
`none`; but no shape normalization happens in `load()` itself: the server
consumers read `updates` via `manifest.updates || []` (so a bare sequence
contributes no entries), and the `{updates: ...}` normalization rule
(sequence wrapped, mapping as-is, otherwise empty) is applied only by the
publish/delete script's jq `toObj`. -/
theorem load_manifest_semantics :
    (∀ (lf : Option String) (parse : String → Option JsVal) (t : String) (j : JsVal),
      parse t = some j → loadManifest true (some t) lf parse = some j) ∧
    (∀ (lf : Option String) (parse : String → Option JsVal) (t : String),
      parse t = none → loadManifest true (some t) lf parse = loadLocal lf parse) ∧
    (∀ (lf : Option String) (parse : String → Option JsVal),
      loadManifest true none lf parse = loadLocal lf parse) ∧
    (∀ (p lf : Option String) (parse : String → Option JsVal),
      loadManifest false p lf parse = loadLocal lf parse) ∧
    (∀ parse : String → Option JsVal, loadLocal none parse = none) ∧
    (∀ (parse : String → Option JsVal) (t : String),
      parse t = none → loadLocal (some t) parse = none) ∧
    (∀ l, jsUpdatesOf (JsVal.jarr l) = []) ∧
    (∀ l, toObj (JsVal.jarr l) = JsVal.jobj (some l)) ∧
    (∀ u, toObj (JsVal.jobj u) = JsVal.jobj u) ∧
    (∀ v : JsVal, (∀ l, v ≠ JsVal.jarr l) → (∀ u, v ≠ JsVal.jobj u) →
      toObj v = JsVal.jobj (some [])) := by
  refine ⟨?_, ?_, ?_, ?_, ?_, ?_, ?_, ?_, ?_, ?_⟩
  · intro lf parse t j h
    show (match parse t with
      | some j => some j
      | none => loadLocal lf parse) = some j
    rw [h]
  · intro lf parse t h
    show (match parse t with
      | some j => some j
      | none => loadLocal lf parse) = loadLocal lf parse
    rw [h]
  · intro lf parse
    rfl
  · intro p lf parse
    rfl
  · intro parse
    rfl
  · intro parse t h
    show (match parse t with
      | some j => some j
      | none => none) = none
    rw [h]
  · intro l
    rfl
  · intro l
    rfl
  · intro u
    rfl
  · intro v harr hobj
    cases v with
    | jarr l => exact absurd rfl (harr l)
    | jobj u => exact absurd rfl (hobj u)
    | jnull => rfl
    | jbool b => rfl
    | jnum n => rfl
    | jstr s => rfl

/-- Witness for C5's amended form: a primary parse failure with no local
fallback yields the not-found result. -/
theorem load_manifest_semantics_witness :
    loadManifest true (some "oops") none (fun _ => none) = loadLocal none (fun _ => none) :=
  load_manifest_semantics.2.1 none (fun _ => none) "oops" rfl

/-- The result of `signBlobUrl` (`part_002` lines 45-70): with an account
shared key, a per-request token with a validity window; otherwise the
plain blob URL with the static `AZURE_STORAGE_SAS` appended when present. -/
structure SignedUrlResult where
  blobName : String
  window : Option (Int × Int)
  staticSas : Option String
deriving DecidableEq

/-- The validity window computed by `signBlobUrl` (lines 50-52):
`startsOn = now - 5 minutes` (clock skew), `expiresOn = now + ttl seconds`,
all in milliseconds. -/
def sasWindow (nowMs ttlSec : Int) : Int × Int :=
  (nowMs - 5 * 60 * 1000, nowMs + ttlSec * 1000)

/-- `signBlobUrl` (`part_002` lines 45-70) under an injected clock
`nowMs`: the shared-key path signs a read-only token for the blob with the
`sasWindow` validity window; the fallback path appends the static SAS. -/
def signBlobUrl (hasSharedKey : Bool) (storageSas : String) (blobName : String)
    (nowMs ttlSec : Int) : SignedUrlResult :=
  if hasSharedKey then
    { blobName := blobName, window := some (sasWindow nowMs ttlSec), staticSas := none }
  else
    { blobName := blobName, window := none,
      staticSas := if storageSas = "" then none else some storageSas }

/-- C9: for every object name and TTL, under a fixed clock `T` the signed
link's validity window starts exactly at `T - 5 minutes` (clock skew) and
ends exactly at `T + ttl seconds`; in particular `issue(name, 900)` has
window `[T - 300s, T + 900s]`. -/
theorem signed_url_window (sas name : String) (T ttl : Int) :
    (signBlobUrl true sas name T ttl).window = some (T - 300 * 1000, T + ttl * 1000) ∧
    (signBlobUrl true sas name T 900).window = some (T - 300 * 1000, T + 900 * 1000) := by
  constructor
  · show some (sasWindow T ttl) = _
    unfold sasWindow
    norm_num
  · show some (sasWindow T 900) = _
    unfold sasWindow
    norm_num

/-- The entry selection of `GET /api/release-notes` (`part_002` lines
238-240): with a (truthy) version filter, `candidates.find(u => u.version
=== version) || candidates[0]`; otherwise `candidates[0]`. -/
def chooseNotesEntry (candidates : List ReleaseEntry) (c0 : ReleaseEntry)
    (version : Option String) : ReleaseEntry :=
  match version with
  | some v =>
    if v = "" then c0
    else ((candidates.find? fun u => u.version = v).getD c0)
  | none => c0

/-- The responses of `GET /api/release-notes`: missing product (400),
missing/falsy manifest (404), zero candidates after filtering (404),
resolution yielding nothing (404), or a successful payload. -/
inductive NotesResponse where
  | badRequest
  | manifestMissing
  | noCandidates
  | notesUnavailable
  | ok (entry : ReleaseEntry) (notes : NotesResult)
deriving DecidableEq

/-- The `GET /api/release-notes` handler (`part_002` lines 208-262):
validate product, load manifest, filter candidates exactly as the update
check does, pick the entry by version with fallback to the first
candidate, resolve its notes, 404 when resolution yields nothing. -/
def handleReleaseNotes (sa : Bool) (download : String → Option String)
    (manifest : Option JsVal) (product : String)
    (version model channel : Option String) : NotesResponse :=
  if product = "" then .badRequest
  else
    match manifest with
    | none => .manifestMissing
    | some m =>
      if jsTruthy m = false then .manifestMissing
      else
        match filterCandidates (jsUpdatesOf m) product model channel with
        | [] => .noCandidates
        | c0 :: rest =>
          match (resolveReleaseNotes sa download
              (chooseNotesEntry (c0 :: rest) c0 version)).1 with
          | none => .notesUnavailable
          | some rn => .ok (chooseNotesEntry (c0 :: rest) c0 version) rn

/-- C10: when the requested version matches no candidate but candidates
exist, the endpoint silently serves the first candidate's notes (not-found
arises only from zero candidates or empty resolution). -/
theorem release_notes_version_fallback (sa : Bool) (download : String → Option String)
    (m : JsVal) (product v : String) (model channel : Option String)
    (c0 : ReleaseEntry) (rest : List ReleaseEntry)
    (hp : product ≠ "") (hm : jsTruthy m = true) (hv : v ≠ "")
    (hc : filterCandidates (jsUpdatesOf m) product model channel = c0 :: rest)
    (hmiss : ∀ u ∈ filterCandidates (jsUpdatesOf m) product model channel,
      u.version ≠ v) :
    handleReleaseNotes sa download (some m) product (some v) model channel =
      (match (resolveReleaseNotes sa download c0).1 with
       | none => NotesResponse.notesUnavailable
       | some rn => NotesResponse.ok c0 rn) := by
  have hfind : (c0 :: rest).find? (fun u => u.version = v) = none := by
    rw [List.find?_eq_none]
    intro u hu
    rw [hc] at hmiss
    simp only [decide_eq_true_eq]
    exact hmiss u hu
  have hchoose : chooseNotesEntry (c0 :: rest) c0 (some v) = c0 := by
    show (if v = "" then c0
      else ((c0 :: rest).find? fun u => u.version = v).getD c0) = c0
    rw [if_neg hv, hfind]
    rfl
  unfold handleReleaseNotes
  rw [if_neg hp]
  show (if jsTruthy m = false then _ else _) = _
  rw [if_neg (by simp [hm])]
  show (match filterCandidates (jsUpdatesOf m) product model channel with
    | [] => NotesResponse.noCandidates
    | c0 :: rest =>
      match (resolveReleaseNotes sa download
          (chooseNotesEntry (c0 :: rest) c0 (some v))).1 with
      | none => NotesResponse.notesUnavailable
      | some rn => NotesResponse.ok (chooseNotesEntry (c0 :: rest) c0 (some v)) rn) = _
  rw [hc]
  show (match (resolveReleaseNotes sa download
      (chooseNotesEntry (c0 :: rest) c0 (some v))).1 with
    | none => NotesResponse.notesUnavailable
    | some rn => NotesResponse.ok (chooseNotesEntry (c0 :: rest) c0 (some v)) rn) = _
  rw [hchoose]

/-- A one-entry manifest whose release notes are a blob reference, used to
witness the release-notes fallback. -/
def notesManifest : JsVal := JsVal.jobj (some [blobRefEntry])

/-- Witness for C10: requesting version `9.9.9` (matching nothing) against
a one-candidate manifest serves the first candidate's notes. -/
theorem release_notes_version_fallback_witness :
    handleReleaseNotes true (fun _ => some "notes text") (some notesManifest)
      "instrument" (some "9.9.9") none none =
      (match (resolveReleaseNotes true (fun _ => some "notes text") blobRefEntry).1 with
       | none => NotesResponse.notesUnavailable
       | some rn => NotesResponse.ok blobRefEntry rn) :=
  release_notes_version_fallback true (fun _ => some "notes text") notesManifest
    "instrument" "9.9.9" none none blobRefEntry [] (by decide) (by decide)
    (by decide) (by decide) (by decide)

/-- jq string ordering (unicode codepoint order) as a strict comparison on
character lists. -/
def charListLt : List Char → List Char → Bool
  | [], [] => false
  | [], _ :: _ => true
  | _ :: _, [] => false
  | c :: cs, d :: ds =>
    if c.toNat < d.toNat then true
    else if d.toNat < c.toNat then false
    else charListLt cs ds

/-- `a ≤ b` under jq's string ordering. -/
def jqStrLe (a b : String) : Bool := !(charListLt b.data a.data)

/-- Key-projected jq ordering used by `group_by`/`unique_by`. -/
def jqKeyLe (key : α → String) (a b : α) : Bool := jqStrLe (key a) (key b)

/-- Drop every element of a sorted list whose key repeats the previous
key: after a stable sort this keeps the first element of each equal-key
group (jq `group_by(f)[] | .[0]`). -/
def dedupRunsAux (key : α → String) (prev : String) : List α → List α
  | [] => []
  | y :: ys =>
    if key y = prev then dedupRunsAux key prev ys
    else y :: dedupRunsAux key (key y) ys

/-- First element of each equal-key run. -/
def dedupRuns (key : α → String) : List α → List α
  | [] => []
  | x :: xs => x :: dedupRunsAux key (key x) xs

/-- jq `unique_by(f)`, which is `[group_by(f)[] | .[0]]`: a stable sort by
the key followed by keeping the first element of each equal-key group —
so for duplicated keys the earliest element of the input survives. -/
def jqUniqueBy (key : α → String) (l : List α) : List α :=
  dedupRuns key (jsSortBy (jqKeyLe key) l)

/-- The dedup key of `publish_update.sh` line 426:
`.product + ":" + (.model // "") + ":" + .version`. -/
def dedupKey (e : ReleaseEntry) : String :=
  e.product ++ ":" ++ e.model.getD "" ++ ":" ++ e.version

/-- The publish merge of `publish_update.sh` lines 421-428: normalize the
downloaded manifest with `toObj`, append the new entry, and apply
`unique_by` on the dedup key. -/
def publishUpdate (doc : JsVal) (entry : ReleaseEntry) : JsVal :=
  JsVal.jobj (some (jqUniqueBy dedupKey (jsUpdatesOf (toObj doc) ++ [entry])))

/-- A previously published instrument/agera 1.0.0 entry. -/
def oldAgeraEntry : ReleaseEntry :=
  { product := "instrument"
    model := some "agera"
    version := "1.0.0"
    channel := some "production"
    releaseDate := some "2025-01-01T00:00:00+00:00"
    file := some "a.bin"
    releaseNotes := some (.str "instrument-1.0.0-notes.md") }

/-- A second publish of the same `product:model:version` with different
fields (`b.bin`, a later date). -/
def newAgeraEntry : ReleaseEntry :=
  { product := "instrument"
    model := some "agera"
    version := "1.0.0"
    channel := some "production"
    releaseDate := some "2025-02-01T00:00:00+00:00"
    file := some "b.bin"
    releaseNotes := some (.str "instrument-1.0.0-notes.md") }

/-- C1 failing input (the spec's Scenario 4): publishing a second entry
with an existing dedup key keeps the OLD entry, not the new one — jq's
`unique_by` keeps the first element of each equal-key group in input
order, and the new entry is appended last.  The document does end up with
exactly one entry for the key, but its fields are the first publish's
(`file: "a.bin"`), contradicting the claimed last-write-wins upsert. -/
theorem publish_second_entry_loses :
    dedupKey oldAgeraEntry = dedupKey newAgeraEntry ∧
    oldAgeraEntry ≠ newAgeraEntry ∧
    publishUpdate (JsVal.jobj (some [oldAgeraEntry])) newAgeraEntry =
      JsVal.jobj (some [oldAgeraEntry]) := by
  refine ⟨rfl, ?_, rfl⟩
  decide

/-- The delete-mode candidate filter of `publish_update.sh` (lines
152-167): product always, then channel / model / version only when the
corresponding flag was given (non-empty). -/
def deleteFilter (updates : List ReleaseEntry)
    (product version channel model : String) : List ReleaseEntry :=
  let s1 := updates.filter fun u => u.product = product
  let s2 :=
    if channel ≠ "" then s1.filter fun u => u.channel.getD "production" = channel
    else s1
  let s3 :=
    if model ≠ "" then s2.filter fun u => u.model.getD "" = model
    else s2
  if version ≠ "" then s3.filter fun u => u.version = version
  else s3

/-- The chosen id of `publish_update.sh` lines 202-216: jq applies
`to_entries` AFTER the filters, so `.[$sel - 1].key` is the position
within the filtered list (`sel - 1`), not the entry's position in the
original `updates` array; out-of-range selections yield `empty` (abort).
(The script's picker numbers candidates from 1; `sel = 0`, which jq would
treat as index `-1`, is outside the claims' scope.) -/
def deleteChosenIdx (doc : JsVal) (product version channel model : String)
    (sel : Nat) : Option Nat :=
  let filtered := deleteFilter (jsUpdatesOf (toObj doc)) product version channel model
  if 1 ≤ sel ∧ sel ≤ filtered.length then some (sel - 1) else none

/-- The object names the delete cascade targets (lines 244-258): the
entry's `releaseNotes` (a blob-name string), `file`, and each platform
file; absent or empty names are skipped (`// empty`,
`blob_delete_if_exists`). -/
def entryBlobNames (e : ReleaseEntry) : List String :=
  (([match e.releaseNotes with
      | some (.str s) => some s
      | _ => none,
     e.file, e.filesWindows, e.filesMacos, e.filesLinux,
     e.filesDefault].filterMap id).filter fun s => s ≠ "")

/-- `delete_release` of `publish_update.sh` (lines 144-271) after the
operator picks `sel` and confirms: resolve the chosen id, delete the
blobs referenced by `updates[$idx]` of the ORIGINAL array, and remove the
entry at position `$idx` of the original array (jq
`to_entries | map(select(.key != $idx)) | map(.value)`). -/
def deleteRelease (doc : JsVal) (product version channel model : String)
    (sel : Nat) : Option (JsVal × List String) :=
  match deleteChosenIdx doc product version channel model sel with
  | none => none
  | some idx =>
    let ups := jsUpdatesOf (toObj doc)
    let blobs :=
      match ups[idx]? with
      | some victim => entryBlobNames victim
      | none => []
    some (JsVal.jobj (some (ups.eraseIdx idx)), blobs)

/-- A desktop entry that does NOT match the delete filter below. -/
def desktopEntryA : ReleaseEntry :=
  { product := "desktop"
    version := "1.0.0"
    filesWindows := some "EMQC-1.0.0-Setup.exe"
    releaseNotes := some (.str "desktop-1.0.0-notes.md") }

/-- The instrument entry the operator intends to delete. -/
def instrumentEntryB : ReleaseEntry :=
  { product := "instrument"
    model := some "agera"
    version := "2.0.0"
    file := some "b.bin"
    releaseNotes := some (.str "instrument-2.0.0-notes.md") }

/-- C8 failing input: the manifest holds `[desktopEntryA, instrumentEntryB]`
and the operator deletes with `--product instrument`; the picker lists
exactly one candidate (the instrument entry) and the operator chooses 1 —
yet the script removes `updates[0]`, the DESKTOP entry, deletes the
desktop entry's blobs, and keeps the selected instrument entry: the
chosen id is a filtered-list position applied to the unfiltered array. -/
theorem delete_removes_unselected_entry :
    deleteFilter (jsUpdatesOf (toObj (JsVal.jobj (some [desktopEntryA, instrumentEntryB]))))
      "instrument" "" "" "" = [instrumentEntryB] ∧
    deleteRelease (JsVal.jobj (some [desktopEntryA, instrumentEntryB]))
      "instrument" "" "" "" 1 =
      some (JsVal.jobj (some [instrumentEntryB]),
        ["desktop-1.0.0-notes.md", "EMQC-1.0.0-Setup.exe"]) :=
  ⟨rfl, rfl⟩
